import Mathlib

set_option linter.unusedVariables false

/-!
Verification development for the tape-library inventory engine
(postgres-backed inv.Inventory) and its tape domain model.

The Go source is embedded shallowly: the volumes table is a list of rows,
SQL statements become pure functions on that list, and the transaction
lifecycle is tracked explicitly (whether Commit or Rollback was ever
called).  Statements whose argument list does not match the placeholder
count are modelled as failing Execs, which is what PostgreSQL does at
bind time.  Nondeterministic connection failures are not modelled; a
well-formed statement on a live transaction succeeds.
-/

/-- SlotCategory of a library slot.  The defining Go file is not under
src; the constructors follow the spec (Storage, Transfer, ImportExport,
Cleaning) plus a zero value used when a NULL location is scanned. -/
inductive SlotCategory where
  | unknownSlot
  | storage
  | transfer
  | importExport
  | cleaning
deriving DecidableEq, Fintype

/-- Location identifies a slot: an address and a slot category. -/
structure Location where
  addr : Nat
  category : SlotCategory
deriving DecidableEq

/-- VolumeCategory mirrors the Go enumeration in the tape package. -/
inductive VolumeCategory where
  | unknownVolume
  | allocating
  | allocated
  | scratch
  | filling
  | full
  | missing
  | damaged
  | cleaning
deriving DecidableEq, Fintype

/-- String renders a volume category, mirroring VolumeCategory.String. -/
def VolumeCategory.String : VolumeCategory → String
  | .unknownVolume => "unknown"
  | .allocating => "allocating"
  | .allocated => "allocated"
  | .scratch => "scratch"
  | .filling => "filling"
  | .full => "full"
  | .missing => "missing"
  | .damaged => "damaged"
  | .cleaning => "cleaning"

/-- CategoryError is the failure of the string-to-category conversion.
The Go function panics with the message "unknown volume category"; the
panic is modelled as the error outcome of the conversion. -/
inductive CategoryError where
  | invalidCategory
deriving DecidableEq

/-- ToVolumeCategory mirrors the Go conversion; the default branch of
the Go switch panics, modelled here as the invalidCategory error. -/
def ToVolumeCategory (s : String) : Except CategoryError VolumeCategory :=
  if s = "unknown" then .ok .unknownVolume
  else if s = "allocating" then .ok .allocating
  else if s = "allocated" then .ok .allocated
  else if s = "scratch" then .ok .scratch
  else if s = "filling" then .ok .filling
  else if s = "full" then .ok .full
  else if s = "missing" then .ok .missing
  else if s = "damaged" then .ok .damaged
  else if s = "cleaning" then .ok .cleaning
  else .error .invalidCategory

/-- StatusTransfering is bit 0 of the volume flags (1 shifted by iota). -/
def StatusTransfering : Nat := 1

/-- StatusMounted is bit 1 of the volume flags. -/
def StatusMounted : Nat := 2

/-- StatusNeedsCleaning is bit 2 of the volume flags. -/
def StatusNeedsCleaning : Nat := 4

/-- StatusFormatted is bit 3 of the volume flags. -/
def StatusFormatted : Nat := 8

namespace bitmask

/-- Set models bitmask.Set on a uint32 flag word.  Modelled from the
spec: the bitmask package (set/clear/test named flags) is not under
src. -/
def Set (f b : Nat) : Nat := f ||| b

/-- Clear models bitmask.Clear: the bits of b are removed from f.  The
XOR against the all-ones 32-bit word is the uint32 complement of b. -/
def Clear (f b : Nat) : Nat := f &&& (b ^^^ 4294967295)

/-- IsSet models bitmask.IsSet: some bit of b is set in f. -/
def IsSet (f b : Nat) : Bool := f &&& b != 0

end bitmask

/-- Volume mirrors tape.Volume: the record passed to Update and carried
inside changer slots.  Location and Home are plain values, as in Go. -/
structure Volume where
  serial : String
  location : Location
  home : Location
  category : VolumeCategory
  flags : Nat
deriving DecidableEq

/-- Row is one row of the volumes table (the rvol scan target), except
that the nullable location and home columns are kept as options, the
NULL sentinel being how a move in flight is recorded. -/
structure Row where
  serial : String
  location : Option Location
  home : Option Location
  category : VolumeCategory
  flags : Nat
deriving DecidableEq

/-- DB is the volumes table. -/
abbrev DB := List Row

/-- scanLoc models scanning a nullable location column into the plain
tape.Location of an rvol: NULL becomes the zero value. -/
def scanLoc (o : Option Location) : Location :=
  o.getD ⟨0, .unknownSlot⟩

/-- updateRow models UPDATE volumes SET ... WHERE serial = s. -/
def updateRow (db : DB) (s : String) (f : Row → Row) : DB :=
  db.map fun r => if r.serial == s then f r else r

/-- findRow models SELECT ... FROM volumes WHERE serial = s via Get. -/
def findRow (db : DB) (s : String) : Option Row :=
  db.find? fun r => r.serial == s

/-- InvError enumerates the failure modes of the inventory operations. -/
inductive InvError where
  /-- noRows is sql.ErrNoRows surfaced from a Get with no matching row. -/
  | noRows
  /-- invalidTransition carries the errors.Strf message of a failed
  slot-category validation. -/
  | invalidTransition (msg : String)
  /-- changerFailed is an error returned verbatim from the Changer. -/
  | changerFailed
  /-- txDone is database/sql ErrTxDone, returned by Exec on a
  transaction that was already committed. -/
  | txDone
  /-- sqlParam is the bind-time failure of an Exec whose argument list
  does not match the placeholder numbering of its statement. -/
  | sqlParam
deriving DecidableEq

instance {ε α : Type} [DecidableEq ε] [DecidableEq α] : DecidableEq (Except ε α) := fun x y =>
  match x, y with
  | .ok a, .ok b =>
    if h : a = b then isTrue (by rw [h]) else isFalse (by simp [h])
  | .ok _, .error _ => isFalse (by simp)
  | .error _, .ok _ => isFalse (by simp)
  | .error a, .error b =>
    if h : a = b then isTrue (by rw [h]) else isFalse (by simp [h])

/-- MoveOut is the observable outcome of one move operation: the table
afterwards, the returned error if any, whether the Phase-1 transaction
was ever closed (committed or rolled back), and the src and dst with
which the Changer was invoked, when it was. -/
structure MoveOut where
  db : DB
  res : Except InvError Unit
  txClosed : Bool
  chgrCall : Option (Location × Location)
deriving DecidableEq

/-- loadOp embeds postgres.Load.  chgrOk tells whether the Changer call
succeeds.  Note that the two validation failures return without either
committing or rolling back the open transaction. -/
def loadOp (db : DB) (ser : String) (dst : Location) (chgrOk : Bool) : MoveOut :=
  match findRow db ser with
  | none => ⟨db, .error .noRows, true, none⟩
  | some r0 =>
    let rloc := scanLoc r0.location
    if rloc.category ≠ .storage ∧ rloc.category ≠ .importExport then
      ⟨db, .error (.invalidTransition "invalid source slot for load operation"), false, none⟩
    else if dst.category ≠ .transfer then
      ⟨db, .error (.invalidTransition "invalid destination slot for load operation"), false, none⟩
    else
      let flags1 := bitmask.Set (bitmask.Set r0.flags StatusTransfering) StatusMounted
      let db1 := updateRow db ser fun r =>
        { r with location := none, home := some ⟨rloc.addr, rloc.category⟩, flags := flags1 }
      if chgrOk then
        let flags2 := bitmask.Clear flags1 StatusTransfering
        let cat2 := if r0.category = .allocating then .allocated else r0.category
        let db2 := updateRow db1 ser fun r =>
          { r with location := some ⟨dst.addr, dst.category⟩, category := cat2, flags := flags2 }
        ⟨db2, .ok (), true, some (rloc, dst)⟩
      else
        ⟨db1, .error .changerFailed, true, some (rloc, dst)⟩

/-- unloadOp embeds postgres.Unload.  The zero destination address
selects the recorded home.  The finalize UPDATE runs on the transaction
that was committed earlier, so it always fails with ErrTxDone and the
Phase-1 state is what remains. -/
def unloadOp (db : DB) (ser : String) (dst : Location) (chgrOk : Bool) : MoveOut :=
  match findRow db ser with
  | none => ⟨db, .error .noRows, true, none⟩
  | some r0 =>
    let dst1 := if dst.addr = 0 then scanLoc r0.home else dst
    let rloc := scanLoc r0.location
    if rloc.category ≠ .transfer then
      ⟨db, .error (.invalidTransition "invalid source slot for unload operation"), false, none⟩
    else if dst1.category ≠ .storage ∧ dst1.category ≠ .importExport then
      ⟨db, .error (.invalidTransition "invalid destination slot for unload operation"), false, none⟩
    else
      let flags1 := bitmask.Set (bitmask.Clear r0.flags StatusMounted) StatusTransfering
      let db1 := updateRow db ser fun r => { r with location := none, flags := flags1 }
      if chgrOk then
        ⟨db1, .error .txDone, true, some (rloc, dst1)⟩
      else
        ⟨db1, .error .changerFailed, true, some (rloc, dst1)⟩

/-- transferOp embeds postgres.Transfer.  Its Phase-1 UPDATE numbers its
placeholders 3 and 4 but binds the three values location, flags, serial,
so the Exec always fails at bind time and the transaction is rolled
back; the Changer is never reached. -/
def transferOp (db : DB) (ser : String) (dst : Location) (chgrOk : Bool) : MoveOut :=
  match findRow db ser with
  | none => ⟨db, .error .noRows, true, none⟩
  | some r0 =>
    let rloc := scanLoc r0.location
    if rloc.category ≠ .storage ∧ rloc.category ≠ .importExport then
      ⟨db, .error (.invalidTransition "invalid source slot for transfer operation"), false, none⟩
    else if dst.category ≠ .storage ∧ dst.category ≠ .importExport then
      ⟨db, .error (.invalidTransition "invalid destination slot for transfer"), false, none⟩
    else
      ⟨db, .error .sqlParam, true, none⟩

/-- updateOp embeds postgres.Update: the caller-supplied volume record
is written verbatim over the row with that serial. -/
def updateOp (db : DB) (vol : Volume) : DB :=
  updateRow db vol.serial fun r =>
    { r with location := some vol.location, home := some vol.home,
             category := vol.category, flags := vol.flags }

/-- requiredOpts is the list of configuration keys the postgres
constructor checks, in the order the source checks them. -/
def requiredOpts : List String :=
  ["dbhost", "dbname", "username", "password", "cleaning-prefix"]

/-- NewError enumerates the failures of inv/postgres.New. -/
inductive NewError where
  /-- missingOption is the configuration error whose message names the
  option: the N option must be specified. -/
  | missingOption (opt : String)
  /-- connectFailed is an error returned by sqlx.Connect. -/
  | connectFailed
deriving DecidableEq

/-- Config is the state New constructs on success. -/
structure Config where
  prefixCleaning : String
deriving DecidableEq

/-- New embeds inv/postgres.New.  The option bag is an association
list; connectOk tells whether the database connection attempt, which
happens only after all required options are present, succeeds. -/
def New (opts : List (String × String)) (connectOk : Bool) : Except NewError Config :=
  match requiredOpts.find? (fun o => (opts.lookup o).isNone) with
  | some o => .error (.missingOption o)
  | none =>
    if connectOk then
      .ok ⟨(opts.lookup "cleaning-prefix").getD ""⟩
    else
      .error .connectFailed

/-- eligibleB is the Alloc candidate filter: category IN (filling,
scratch) and (location).category = storage; a NULL location fails the
composite comparison, so in-transit volumes are not eligible. -/
def eligibleB (r : Row) : Bool :=
  (r.category == .filling || r.category == .scratch) &&
    (match r.location with
     | some l => l.category == .storage
     | none => false)

/-- volKey is the ORDER BY category, serial key.  The schema for the
category column is not under src; modelled from the spec, which orders
categories lexicographically by name ("Filling < Scratch
lexicographically per the documented order"); serial is text. -/
def volKey (r : Row) : (List Char) ×ₗ (List Char) :=
  toLex ((VolumeCategory.String r.category).data, r.serial.data)

/-- AllocError is the failure of Alloc. -/
inductive AllocError where
  /-- noRows is sql.ErrNoRows: no eligible candidate (the Exhausted
  condition of the spec). -/
  | noRows
deriving DecidableEq

/-- allocOp embeds postgres.Alloc: pick the least eligible row by
(category, serial), promote it to Allocating unless it is already
Filling, and return its serial. -/
def allocOp (db : DB) : Except AllocError String × DB :=
  match (db.filter eligibleB).argmin volKey with
  | none => (.error .noRows, db)
  | some w =>
    if w.category == .filling then
      (.ok w.serial, db)
    else
      (.ok w.serial, updateRow db w.serial fun r => { r with category := .allocating })

/-- Slot is one slot of a Changer Status snapshot: its address, its
category, and the volume loaded there if any. -/
structure Slot where
  addr : Nat
  category : SlotCategory
  volume : Option Volume
deriving DecidableEq

/-- Snapshot is the Changer Status result: a mapping from slot category
to the ordered slots of that category. -/
abbrev Snapshot := SlotCategory → List Slot

/-- SlotCategories is the fixed enumeration Audit iterates.  Modelled
from the spec: the Go slice is defined in a tape-package file that is
not under src; any fixed order gives the same audited state per
serial. -/
def SlotCategories : List SlotCategory :=
  [.storage, .transfer, .importExport, .cleaning]

/-- AuditItem is one upsert Audit performs: the occupant serial, the
slot written as the location, the category used when the serial is new,
and the flags written. -/
structure AuditItem where
  serial : String
  loc : Location
  cat : VolumeCategory
  flags : Nat
deriving DecidableEq

/-- auditItemsFor collects the upserts for the slots listed under one
slot category: occupied slots only, location (slot.Addr,
slot.Category), category Cleaning when the serial carries the cleaning
prefix else Scratch, flags Mounted exactly for the transfer category.
The prefix test is strings.HasPrefix, expressed on character lists. -/
def auditItemsFor (snap : Snapshot) (prefixCleaning : String) (t : SlotCategory) : List AuditItem :=
  let flags := if t = .transfer then bitmask.Set 0 StatusMounted else 0
  (snap t).filterMap fun slot =>
    slot.volume.map fun v =>
      { serial := v.serial,
        loc := ⟨slot.addr, slot.category⟩,
        cat := if prefixCleaning.data.isPrefixOf v.serial.data then .cleaning else .scratch,
        flags := flags }

/-- auditItems is the full upsert sequence of one Audit run, in
iteration order. -/
def auditItems (snap : Snapshot) (prefixCleaning : String) : List AuditItem :=
  SlotCategories.flatMap (auditItemsFor snap prefixCleaning)

/-- upsertAudit embeds the INSERT ... ON CONFLICT (serial) DO UPDATE of
Audit: a new serial is inserted with location, category and flags (home
NULL); an existing serial gets only location and flags overwritten. -/
def upsertAudit (db : DB) (it : AuditItem) : DB :=
  if (findRow db it.serial).isSome then
    updateRow db it.serial fun r => { r with location := some it.loc, flags := it.flags }
  else
    db ++ [⟨it.serial, some it.loc, none, it.cat, it.flags⟩]

/-- auditRun folds the upserts of one Audit over the table. -/
def auditRun (db : DB) (items : List AuditItem) : DB :=
  items.foldl upsertAudit db

/-- auditOp embeds postgres.Audit against a given Status snapshot. -/
def auditOp (db : DB) (snap : Snapshot) (prefixCleaning : String) : DB :=
  auditRun db (auditItems snap prefixCleaning)

/-- rowOk is the mounted-volume consistency condition of one row: if
the Mounted flag (bit 1) is set then the location is absent or is a
transfer slot. -/
def rowOk (r : Row) : Bool :=
  match r.location with
  | none => true
  | some l => !(r.flags.testBit 1) || (l.category == .transfer)

/-- invariantDB lifts rowOk to every row of the table. -/
def invariantDB (db : DB) : Prop := ∀ r ∈ db, rowOk r = true

instance (db : DB) : Decidable (invariantDB db) :=
  List.decidableBAll (fun r => rowOk r = true) db

/-- SnapshotWF states the Status contract: every slot listed under a
category is a slot of that category. -/
def SnapshotWF (snap : Snapshot) : Prop :=
  ∀ t : SlotCategory, ∀ s ∈ snap t, s.category = t

/-- itemOk is rowOk specialized to the row contents an audit upsert
writes. -/
def itemOk (it : AuditItem) : Bool :=
  !(it.flags.testBit 1) || (it.loc.category == .transfer)

/-- EngineStep is one state change of the inventory engine through
Load, Unload, Transfer, Alloc or Audit (with a snapshot satisfying the
Status contract). -/
inductive EngineStep : DB → DB → Prop where
  | load (db : DB) (ser : String) (dst : Location) (c : Bool) :
      EngineStep db (loadOp db ser dst c).db
  | unload (db : DB) (ser : String) (dst : Location) (c : Bool) :
      EngineStep db (unloadOp db ser dst c).db
  | transfer (db : DB) (ser : String) (dst : Location) (c : Bool) :
      EngineStep db (transferOp db ser dst c).db
  | alloc (db : DB) :
      EngineStep db (allocOp db).2
  | audit (db : DB) (snap : Snapshot) (prefixCleaning : String) (hwf : SnapshotWF snap) :
      EngineStep db (auditOp db snap prefixCleaning)

/-- EngineStepAll additionally includes Update, which writes the
caller-supplied record verbatim. -/
inductive EngineStepAll : DB → DB → Prop where
  | load (db : DB) (ser : String) (dst : Location) (c : Bool) :
      EngineStepAll db (loadOp db ser dst c).db
  | unload (db : DB) (ser : String) (dst : Location) (c : Bool) :
      EngineStepAll db (unloadOp db ser dst c).db
  | transfer (db : DB) (ser : String) (dst : Location) (c : Bool) :
      EngineStepAll db (transferOp db ser dst c).db
  | alloc (db : DB) :
      EngineStepAll db (allocOp db).2
  | audit (db : DB) (snap : Snapshot) (prefixCleaning : String) (hwf : SnapshotWF snap) :
      EngineStepAll db (auditOp db snap prefixCleaning)
  | update (db : DB) (vol : Volume) :
      EngineStepAll db (updateOp db vol)

/-- step1 is the per-row effect of replaying one audit upsert as a pure
update: rows with the matching serial get the location and flags of the
item. -/
def step1 (it : AuditItem) (r : Row) : Row :=
  if r.serial == it.serial then
    { r with location := some it.loc, flags := it.flags }
  else r

/-- applySeq replays a sequence of audit upserts over one row. -/
def applySeq (items : List AuditItem) (r : Row) : Row :=
  items.foldl (fun r it => step1 it r) r

/-- hasSerial tells whether some row of the table carries the serial. -/
def hasSerial (db : DB) (s : String) : Bool :=
  db.any fun r => r.serial == s

/-- occursB tells whether some item of the sequence carries the
serial. -/
def occursB (s : String) (items : List AuditItem) : Bool :=
  items.any fun it => it.serial == s

/-- C1: at a concrete failing input for each move operation, a Phase-1
validation failure returns the InvalidTransition error and leaves the
row untouched, but the open transaction is neither committed nor rolled
back (txClosed is false), diverging from the claimed abort. -/
theorem c1_phase1_validation_no_rollback :
    loadOp [⟨"V1", some ⟨10, .storage⟩, none, .scratch, 0⟩] "V1" ⟨1, .storage⟩ true
      = ⟨[⟨"V1", some ⟨10, .storage⟩, none, .scratch, 0⟩],
          .error (.invalidTransition "invalid destination slot for load operation"),
          false, none⟩ ∧
    unloadOp [⟨"V1", some ⟨10, .storage⟩, none, .scratch, 0⟩] "V1" ⟨7, .storage⟩ true
      = ⟨[⟨"V1", some ⟨10, .storage⟩, none, .scratch, 0⟩],
          .error (.invalidTransition "invalid source slot for unload operation"),
          false, none⟩ ∧
    transferOp [⟨"V1", some ⟨10, .storage⟩, none, .scratch, 0⟩] "V1" ⟨2, .transfer⟩ true
      = ⟨[⟨"V1", some ⟨10, .storage⟩, none, .scratch, 0⟩],
          .error (.invalidTransition "invalid destination slot for transfer"),
          false, none⟩ := by
  refine ⟨by decide, by decide, by decide⟩

/-- C2: a Transfer that passes Phase-1 validation never commits the
in-motion state: the Phase-1 UPDATE fails at bind time, the transaction
is rolled back, the table is unchanged and the Changer is never
invoked, diverging from the claimed committed location-absent and
Transfering-set state. -/
theorem c2_transfer_phase1_never_commits :
    transferOp [⟨"V1", some ⟨10, .storage⟩, none, .scratch, 0⟩] "V1" ⟨20, .storage⟩ true
      = ⟨[⟨"V1", some ⟨10, .storage⟩, none, .scratch, 0⟩],
          .error .sqlParam, true, none⟩ := by
  decide

theorem unloadOp_zero_addr (db : DB) (ser : String) (dst : Location) (c : Bool) (row : Row)
    (hrow : findRow db ser = some row) (hdst : dst.addr = 0) :
    unloadOp db ser dst c = unloadOp db ser (scanLoc row.home) c := by
  unfold unloadOp
  rw [hrow]
  simp [hdst]

/-- C6: when the supplied destination has address zero and the recorded
home scans to slot 10 in Storage, Unload behaves as if that home had
been passed; and if the current location is not in a Transfer slot the
call fails with the InvalidTransition error of the source validation. -/
theorem c6_unload_default_home (db : DB) (ser : String) (row : Row) (c : Bool) (dst : Location)
    (hrow : findRow db ser = some row)
    (hhome : scanLoc row.home = ⟨10, .storage⟩)
    (hdst : dst.addr = 0) :
    unloadOp db ser dst c = unloadOp db ser ⟨10, .storage⟩ c ∧
    ((scanLoc row.location).category ≠ .transfer →
      (unloadOp db ser dst c).res
        = .error (.invalidTransition "invalid source slot for unload operation")) := by
  constructor
  · rw [unloadOp_zero_addr db ser dst c row hrow hdst, hhome]
  · intro hcat
    rw [unloadOp_zero_addr db ser dst c row hrow hdst]
    unfold unloadOp
    rw [hrow]
    simp only [if_pos hcat]

theorem c6_unload_default_home_witness :
    unloadOp [⟨"V1", some ⟨3, .storage⟩, some ⟨10, .storage⟩, .scratch, 0⟩] "V1" ⟨0, .unknownSlot⟩ true
      = unloadOp [⟨"V1", some ⟨3, .storage⟩, some ⟨10, .storage⟩, .scratch, 0⟩] "V1" ⟨10, .storage⟩ true ∧
    ((scanLoc (some ⟨3, .storage⟩)).category ≠ .transfer →
      (unloadOp [⟨"V1", some ⟨3, .storage⟩, some ⟨10, .storage⟩, .scratch, 0⟩] "V1" ⟨0, .unknownSlot⟩ true).res
        = .error (.invalidTransition "invalid source slot for unload operation")) :=
  c6_unload_default_home
    [⟨"V1", some ⟨3, .storage⟩, some ⟨10, .storage⟩, .scratch, 0⟩]
    "V1" ⟨"V1", some ⟨3, .storage⟩, some ⟨10, .storage⟩, .scratch, 0⟩ true ⟨0, .unknownSlot⟩
    (by decide) (by decide) (by decide)

/-- C10 (amended): a destination with address zero always makes Unload
behave exactly as if the scanned recorded home had been supplied; the
caller cannot select address zero through the dst argument. -/
theorem c10_unload_zero_addr_home (db : DB) (ser : String) (dst : Location) (c : Bool) (row : Row)
    (hrow : findRow db ser = some row) (hdst : dst.addr = 0) :
    unloadOp db ser dst c = unloadOp db ser (scanLoc row.home) c :=
  unloadOp_zero_addr db ser dst c row hrow hdst

theorem c10_unload_zero_addr_home_witness :
    unloadOp [⟨"V1", some ⟨1, .transfer⟩, some ⟨10, .storage⟩, .scratch, 2⟩] "V1" ⟨0, .unknownSlot⟩ true
      = unloadOp [⟨"V1", some ⟨1, .transfer⟩, some ⟨10, .storage⟩, .scratch, 2⟩] "V1"
          (scanLoc (some ⟨10, .storage⟩)) true :=
  c10_unload_zero_addr_home
    [⟨"V1", some ⟨1, .transfer⟩, some ⟨10, .storage⟩, .scratch, 2⟩]
    "V1" ⟨0, .unknownSlot⟩ true ⟨"V1", some ⟨1, .transfer⟩, some ⟨10, .storage⟩, .scratch, 2⟩
    (by decide) (by decide)

/-- C10 counterexample: with a recorded home at address zero in
Storage, Unload substitutes that home and invokes the Changer with a
destination whose address is zero, so a volume can be unloaded to a
physical slot at address zero. -/
theorem c10_unload_addr_zero_counterexample :
    (unloadOp [⟨"V1", some ⟨1, .transfer⟩, some ⟨0, .storage⟩, .scratch, 2⟩] "V1" ⟨0, .storage⟩ true).chgrCall
      = some (⟨1, .transfer⟩, ⟨0, .storage⟩) := by
  decide

/-- C3: a successful Load followed by Unload does not restore the
pre-Load location: the Unload finalize runs on the already-committed
transaction, so Unload returns ErrTxDone and the row is left with
location absent, home still set and the Transfering flag (bit 0) set. -/
theorem c3_load_unload_roundtrip_broken :
    (loadOp [⟨"V1", some ⟨10, .storage⟩, none, .scratch, 0⟩] "V1" ⟨1, .transfer⟩ true).res
      = .ok () ∧
    unloadOp (loadOp [⟨"V1", some ⟨10, .storage⟩, none, .scratch, 0⟩] "V1" ⟨1, .transfer⟩ true).db
        "V1" ⟨0, .unknownSlot⟩ true
      = ⟨[⟨"V1", none, some ⟨10, .storage⟩, .scratch, 1⟩],
          .error .txDone, true, some (⟨1, .transfer⟩, ⟨10, .storage⟩)⟩ := by
  refine ⟨by decide, by decide⟩

/-- C9: an option bag missing any required key makes New fail with a
configuration error naming a missing required option, and the outcome
does not depend on whether a connection could have been made, so the
failure happens before any connection attempt. -/
theorem c9_new_missing_option (opts : List (String × String)) (k : String)
    (hk : k ∈ requiredOpts) (hmiss : opts.lookup k = none) :
    ∃ m ∈ requiredOpts, opts.lookup m = none ∧
      ∀ c : Bool, New opts c = .error (.missingOption m) := by
  have hsome : (requiredOpts.find? (fun o => (opts.lookup o).isNone)).isSome := by
    apply List.find?_isSome.2
    exact ⟨k, hk, by simp [hmiss]⟩
  rcases Option.isSome_iff_exists.1 hsome with ⟨m, hm⟩
  refine ⟨m, List.mem_of_find?_eq_some hm, ?_, ?_⟩
  · have := List.find?_some hm
    simpa [Option.isNone_iff_eq_none] using this
  · intro c
    unfold New
    rw [hm]

theorem c9_new_missing_option_witness :
    ∃ m ∈ requiredOpts, [("dbhost", "h")].lookup m = none ∧
      ∀ c : Bool, New [("dbhost", "h")] c = .error (.missingOption m) :=
  c9_new_missing_option [("dbhost", "h")] "dbname" (by decide) (by decide)

/-- C8: the category name mapping round-trips every known category, any
string accepted by the conversion is the rendering of the category it
returns, and a string naming no known category fails with the
InvalidCategory error (the Go panic), never a silent default. -/
theorem c8_category_mapping :
    (∀ cat : VolumeCategory, ToVolumeCategory (VolumeCategory.String cat) = .ok cat) ∧
    (∀ (s : String) (cat : VolumeCategory),
      ToVolumeCategory s = .ok cat → VolumeCategory.String cat = s) ∧
    (∀ s : String, (∀ cat : VolumeCategory, s ≠ VolumeCategory.String cat) →
      ToVolumeCategory s = .error .invalidCategory) := by
  refine ⟨?_, ?_, ?_⟩
  · intro cat
    cases cat <;> rfl
  · intro s cat h
    unfold ToVolumeCategory at h
    repeat' split at h
    all_goals try (injection h with h2; subst h2)
    all_goals simp_all [VolumeCategory.String]
  · intro s h
    unfold ToVolumeCategory
    rw [if_neg (show s ≠ "unknown" from h .unknownVolume),
      if_neg (show s ≠ "allocating" from h .allocating),
      if_neg (show s ≠ "allocated" from h .allocated),
      if_neg (show s ≠ "scratch" from h .scratch),
      if_neg (show s ≠ "filling" from h .filling),
      if_neg (show s ≠ "full" from h .full),
      if_neg (show s ≠ "missing" from h .missing),
      if_neg (show s ≠ "damaged" from h .damaged),
      if_neg (show s ≠ "cleaning" from h .cleaning)]

theorem c8_category_mapping_witness :
    ToVolumeCategory (VolumeCategory.String .scratch) = .ok .scratch ∧
    ToVolumeCategory "TAPE01" = .error .invalidCategory :=
  ⟨c8_category_mapping.1 .scratch,
    c8_category_mapping.2.2 "TAPE01" (fun cat => by cases cat <;> decide)⟩

/-- C4: among the rows eligible for allocation (category Filling or
Scratch, located in a Storage slot), Alloc returns the serial of a row
least in the (category, serial) order and promotes it to Allocating
exactly when it is not already Filling; in particular with A Filling
and B Scratch both in Storage it returns A and leaves A Filling. -/
theorem c4_alloc_selects_least :
    (∀ (db : DB) (r : Row), r ∈ db → eligibleB r = true →
      ∃ w ∈ db, eligibleB w = true ∧
        (∀ r2 ∈ db, eligibleB r2 = true → volKey w ≤ volKey r2) ∧
        allocOp db = (.ok w.serial,
          if w.category == .filling then db
          else updateRow db w.serial fun x => { x with category := .allocating })) ∧
    allocOp [⟨"A", some ⟨1, .storage⟩, none, .filling, 0⟩,
             ⟨"B", some ⟨2, .storage⟩, none, .scratch, 0⟩]
      = (.ok "A", [⟨"A", some ⟨1, .storage⟩, none, .filling, 0⟩,
                   ⟨"B", some ⟨2, .storage⟩, none, .scratch, 0⟩]) := by
  constructor
  · intro db r hr he
    have hmem : r ∈ db.filter eligibleB := List.mem_filter.2 ⟨hr, he⟩
    cases hmin : (db.filter eligibleB).argmin volKey with
    | none =>
      rw [List.argmin_eq_none] at hmin
      rw [hmin] at hmem
      exact absurd hmem (List.not_mem_nil r)
    | some w =>
      have hw : w ∈ (db.filter eligibleB).argmin volKey := hmin ▸ rfl
      have hwf := List.mem_filter.1 (List.argmin_mem hw)
      refine ⟨w, hwf.1, hwf.2, ?_, ?_⟩
      · intro r2 h2 he2
        exact List.le_of_mem_argmin (List.mem_filter.2 ⟨h2, he2⟩) hw
      · unfold allocOp
        rw [hmin]
        by_cases hf : (w.category == VolumeCategory.filling) = true <;> simp [hf]
  · decide

theorem c4_alloc_selects_least_witness :
    ∃ w ∈ [(⟨"A", some ⟨1, .storage⟩, none, .filling, 0⟩ : Row),
           ⟨"B", some ⟨2, .storage⟩, none, .scratch, 0⟩], eligibleB w = true ∧
      (∀ r2 ∈ [(⟨"A", some ⟨1, .storage⟩, none, .filling, 0⟩ : Row),
               ⟨"B", some ⟨2, .storage⟩, none, .scratch, 0⟩],
        eligibleB r2 = true → volKey w ≤ volKey r2) ∧
      allocOp [⟨"A", some ⟨1, .storage⟩, none, .filling, 0⟩,
               ⟨"B", some ⟨2, .storage⟩, none, .scratch, 0⟩]
        = (.ok w.serial,
            if w.category == .filling then
              [⟨"A", some ⟨1, .storage⟩, none, .filling, 0⟩,
               ⟨"B", some ⟨2, .storage⟩, none, .scratch, 0⟩]
            else
              updateRow [⟨"A", some ⟨1, .storage⟩, none, .filling, 0⟩,
                         ⟨"B", some ⟨2, .storage⟩, none, .scratch, 0⟩] w.serial
                fun x => { x with category := .allocating }) :=
  c4_alloc_selects_least.1
    [⟨"A", some ⟨1, .storage⟩, none, .filling, 0⟩,
     ⟨"B", some ⟨2, .storage⟩, none, .scratch, 0⟩]
    ⟨"A", some ⟨1, .storage⟩, none, .filling, 0⟩
    (by decide) (by decide)

theorem invariantDB_updateRow_of (db : DB) (s : String) (f : Row → Row)
    (hf : ∀ r, rowOk r = true → rowOk (f r) = true) (hdb : invariantDB db) :
    invariantDB (updateRow db s f) := by
  intro r2 hr2
  rcases List.mem_map.1 hr2 with ⟨r, hr, rfl⟩
  by_cases h : (r.serial == s) = true
  · simpa [h] using hf r (hdb r hr)
  · simpa [h] using hdb r hr

theorem invariantDB_updateRow_abs (db : DB) (s : String) (f : Row → Row)
    (hf : ∀ r, rowOk (f r) = true) (hdb : invariantDB db) :
    invariantDB (updateRow db s f) :=
  invariantDB_updateRow_of db s f (fun r _ => hf r) hdb

theorem loadOp_preserves (db : DB) (ser : String) (dst : Location) (c : Bool)
    (hdb : invariantDB db) : invariantDB (loadOp db ser dst c).db := by
  unfold loadOp
  cases hfind : findRow db ser with
  | none => simpa using hdb
  | some r0 =>
    dsimp only
    split
    · simpa using hdb
    · split
      · simpa using hdb
      · rename_i h1 h2
        have hdst : dst.category = .transfer := not_not.1 h2
        split
        · apply invariantDB_updateRow_abs
          · intro r
            simp [rowOk, hdst]
          · apply invariantDB_updateRow_abs _ _ _ ?_ hdb
            intro r
            simp [rowOk]
        · apply invariantDB_updateRow_abs _ _ _ ?_ hdb
          intro r
          simp [rowOk]

theorem unloadOp_preserves (db : DB) (ser : String) (dst : Location) (c : Bool)
    (hdb : invariantDB db) : invariantDB (unloadOp db ser dst c).db := by
  unfold unloadOp
  cases hfind : findRow db ser with
  | none => simpa using hdb
  | some r0 =>
    dsimp only
    repeat' split
    all_goals first
      | simpa using hdb
      | (apply invariantDB_updateRow_abs _ _ _ ?_ hdb
         intro r
         simp [rowOk])

theorem transferOp_db_eq (db : DB) (ser : String) (dst : Location) (c : Bool) :
    (transferOp db ser dst c).db = db := by
  unfold transferOp
  cases hfind : findRow db ser with
  | none => rfl
  | some r0 =>
    dsimp only
    split
    · rfl
    · split <;> rfl

theorem allocOp_preserves (db : DB) (hdb : invariantDB db) :
    invariantDB (allocOp db).2 := by
  unfold allocOp
  cases hm : (db.filter eligibleB).argmin volKey with
  | none => simpa using hdb
  | some w =>
    dsimp only
    split
    · simpa using hdb
    · apply invariantDB_updateRow_of _ _ _ ?_ hdb
      intro r h
      cases hl : r.location with
      | none => simp [rowOk, hl]
      | some l => simpa [rowOk, hl] using h

theorem upsertAudit_preserves (db : DB) (it : AuditItem)
    (hit : itemOk it = true) (hdb : invariantDB db) :
    invariantDB (upsertAudit db it) := by
  unfold upsertAudit
  split
  · apply invariantDB_updateRow_abs _ _ _ ?_ hdb
    intro r
    simpa [rowOk, itemOk] using hit
  · intro r hr
    rcases List.mem_append.1 hr with h | h
    · exact hdb r h
    · rcases List.mem_singleton.1 h with rfl
      simpa [rowOk, itemOk] using hit

theorem auditRun_preserves (items : List AuditItem) (db : DB)
    (hits : ∀ it ∈ items, itemOk it = true) (hdb : invariantDB db) :
    invariantDB (auditRun db items) := by
  induction items generalizing db with
  | nil => simpa [auditRun] using hdb
  | cons it its ih =>
    have h1 : invariantDB (upsertAudit db it) :=
      upsertAudit_preserves db it (hits it (List.mem_cons_self it its)) hdb
    exact ih (upsertAudit db it) (fun x hx => hits x (List.mem_cons_of_mem it hx)) h1

theorem auditItems_ok (snap : Snapshot) (pfx : String) (hwf : SnapshotWF snap) :
    ∀ it ∈ auditItems snap pfx, itemOk it = true := by
  intro it hit
  rcases List.mem_flatMap.1 hit with ⟨t, ht, hmem⟩
  unfold auditItemsFor at hmem
  rcases List.mem_filterMap.1 hmem with ⟨slot, hslot, hv⟩
  rcases Option.map_eq_some'.1 hv with ⟨v, hvol, rfl⟩
  have hcat : slot.category = t := hwf t slot hslot
  by_cases htr : t = .transfer
  · simp [itemOk, htr, hcat, bitmask.Set, StatusMounted]
  · simp [itemOk, htr]

theorem auditOp_preserves (db : DB) (snap : Snapshot) (pfx : String)
    (hwf : SnapshotWF snap) (hdb : invariantDB db) :
    invariantDB (auditOp db snap pfx) :=
  auditRun_preserves (auditItems snap pfx) db (auditItems_ok snap pfx hwf) hdb

/-- C5 (amended): the mounted-consistency invariant — Mounted implies
location absent or a Transfer slot — is preserved by every step of the
engine through Load, Unload, Transfer, Alloc and Audit; Update is
excluded, since it stores the caller-supplied row verbatim. -/
theorem c5_mounted_invariant_steps (db db2 : DB) (hdb : invariantDB db)
    (hstep : EngineStep db db2) : invariantDB db2 := by
  cases hstep with
  | load ser dst c => exact loadOp_preserves db ser dst c hdb
  | unload ser dst c => exact unloadOp_preserves db ser dst c hdb
  | transfer ser dst c => exact (transferOp_db_eq db ser dst c).symm ▸ hdb
  | alloc => exact allocOp_preserves db hdb
  | audit snap pfx hwf => exact auditOp_preserves db snap pfx hwf hdb

theorem c5_mounted_invariant_steps_witness :
    invariantDB (loadOp [⟨"V1", some ⟨10, .storage⟩, none, .scratch, 0⟩] "V1" ⟨1, .transfer⟩ true).db :=
  c5_mounted_invariant_steps
    [⟨"V1", some ⟨10, .storage⟩, none, .scratch, 0⟩]
    (loadOp [⟨"V1", some ⟨10, .storage⟩, none, .scratch, 0⟩] "V1" ⟨1, .transfer⟩ true).db
    (by decide)
    (EngineStep.load _ "V1" ⟨1, .transfer⟩ true)

/-- C5 counterexample: over all engine operations including Update the
claimed invariant preservation is false: updating a Storage-located row
with a caller-supplied record whose Mounted flag is set yields a
reachable state with Mounted set and a present non-Transfer location. -/
theorem c5_mounted_invariant_counterexample :
    ¬ (∀ db db2 : DB, invariantDB db → EngineStepAll db db2 → invariantDB db2) := by
  intro h
  have h2 := h [⟨"V1", some ⟨5, .storage⟩, none, .scratch, 0⟩]
    (updateOp [⟨"V1", some ⟨5, .storage⟩, none, .scratch, 0⟩]
      ⟨"V1", ⟨5, .storage⟩, ⟨0, .unknownSlot⟩, .scratch, 2⟩)
    (by decide)
    (EngineStepAll.update _ _)
  have h3 := h2 ⟨"V1", some ⟨5, .storage⟩, some ⟨0, .unknownSlot⟩, .scratch, 2⟩ (by decide)
  exact absurd h3 (by decide)

theorem step1_serial (it : AuditItem) (r : Row) : (step1 it r).serial = r.serial := by
  unfold step1
  split <;> rfl

theorem hasSerial_map (db : DB) (f : Row → Row) (hf : ∀ r, (f r).serial = r.serial)
    (s : String) : hasSerial (db.map f) s = hasSerial db s := by
  simp [hasSerial, List.any_map, Function.comp_def, hf]

theorem hasSerial_iff (db : DB) (s : String) :
    hasSerial db s = true ↔ ∃ r ∈ db, (r.serial == s) = true := by
  simp [hasSerial]

theorem upsert_eq_map_of_present (db : DB) (it : AuditItem)
    (h : hasSerial db it.serial = true) : upsertAudit db it = db.map (step1 it) := by
  unfold upsertAudit
  have hsome : (findRow db it.serial).isSome = true :=
    List.find?_isSome.2 ((hasSerial_iff db it.serial).1 h)
  rw [if_pos hsome]
  rfl

theorem hasSerial_upsert_self (db : DB) (it : AuditItem) :
    hasSerial (upsertAudit db it) it.serial = true := by
  unfold upsertAudit
  split
  · rename_i h
    unfold updateRow
    rw [hasSerial_map]
    · rcases Option.isSome_iff_exists.1 h with ⟨r, hr⟩
      have hr2 : db.find? (fun x => x.serial == it.serial) = some r := hr
      have hp := List.find?_some hr2
      exact (hasSerial_iff db it.serial).2 ⟨r, List.mem_of_find?_eq_some hr2, hp⟩
    · intro r
      split <;> rfl
  · simp [hasSerial, List.any_append]

theorem hasSerial_upsert_mono (db : DB) (it : AuditItem) (s : String)
    (h : hasSerial db s = true) : hasSerial (upsertAudit db it) s = true := by
  unfold upsertAudit
  split
  · unfold updateRow
    rw [hasSerial_map]
    · exact h
    · intro r
      split <;> rfl
  · simp only [hasSerial, List.any_append, Bool.or_eq_true]
    exact Or.inl h

theorem hasSerial_run_mono (items : List AuditItem) (db : DB) (s : String)
    (h : hasSerial db s = true) : hasSerial (auditRun db items) s = true := by
  induction items generalizing db with
  | nil => simpa [auditRun] using h
  | cons it its ih => exact ih (upsertAudit db it) (hasSerial_upsert_mono db it s h)

theorem present_after_run (items : List AuditItem) (db : DB) (it : AuditItem)
    (hit : it ∈ items) : hasSerial (auditRun db items) it.serial = true := by
  induction items generalizing db with
  | nil => exact absurd hit (List.not_mem_nil it)
  | cons a its ih =>
    rcases List.mem_cons.1 hit with rfl | h
    · exact hasSerial_run_mono its (upsertAudit db it) it.serial (hasSerial_upsert_self db it)
    · exact ih (upsertAudit db a) h

theorem run_eq_map_of_present (items : List AuditItem) :
    ∀ db : DB, (∀ it ∈ items, hasSerial db it.serial = true) →
      auditRun db items = db.map (applySeq items) := by
  induction items with
  | nil =>
    intro db h
    exact (List.map_id' db).symm
  | cons it its ih =>
    intro db h
    show auditRun (upsertAudit db it) its = _
    rw [upsert_eq_map_of_present db it (h it (List.mem_cons_self it its))]
    rw [ih (db.map (step1 it)) ?_]
    · rw [List.map_map]
      rfl
    · intro x hx
      rw [hasSerial_map db (step1 it) (step1_serial it)]
      exact h x (List.mem_cons_of_mem it hx)

theorem applySeq_congr (x y : Row) (hs : x.serial = y.serial) (hh : x.home = y.home)
    (hc : x.category = y.category) :
    ∀ its : List AuditItem, occursB x.serial its = true → applySeq its x = applySeq its y := by
  intro its
  induction its with
  | nil =>
    intro h
    exact absurd h (by simp [occursB])
  | cons a rest ih =>
    intro hoc
    show applySeq rest (step1 a x) = applySeq rest (step1 a y)
    by_cases hax : (x.serial == a.serial) = true
    · have hay : (y.serial == a.serial) = true := by rw [← hs]; exact hax
      have hstep : step1 a x = step1 a y := by
        simp [step1, hax, hay, hs, hh, hc]
      rw [hstep]
    · have hax2 : (x.serial == a.serial) = false := Bool.eq_false_iff.2 hax
      have hay : (y.serial == a.serial) = false := by
        rw [← hs]
        exact hax2
      rw [show step1 a x = x from by simp [step1, hax2],
          show step1 a y = y from by simp [step1, hay]]
      apply ih
      have hfalse : (a.serial == x.serial) = false := by
        refine Bool.eq_false_iff.2 fun h => ?_
        exact hax (beq_iff_eq.2 (beq_iff_eq.1 h).symm)
      simpa [occursB, hfalse] using hoc

theorem applySeq_of_not_occurs :
    ∀ (its : List AuditItem) (x : Row), occursB x.serial its = false → applySeq its x = x := by
  intro its
  induction its with
  | nil =>
    intro x h
    rfl
  | cons a rest ih =>
    intro x hoc
    have h1 : (a.serial == x.serial) = false := by
      by_contra hne
      simp only [occursB, List.any_cons, Bool.or_eq_false_iff] at hoc
      exact hne hoc.1
    have h2 : occursB x.serial rest = false := by
      simp only [occursB, List.any_cons, Bool.or_eq_false_iff] at hoc
      exact hoc.2
    have hx : (x.serial == a.serial) = false := by
      refine Bool.eq_false_iff.2 fun h => ?_
      rw [beq_iff_eq.2 (beq_iff_eq.1 h).symm] at h1
      exact Bool.false_ne_true h1.symm
    show applySeq rest (step1 a x) = x
    rw [show step1 a x = x from by simp [step1, hx]]
    exact ih x h2

theorem mem_upsert_fields (db : DB) (it : AuditItem) (r : Row)
    (hr : r ∈ upsertAudit db it) (hser : r.serial = it.serial) :
    r.location = some it.loc ∧ r.flags = it.flags := by
  unfold upsertAudit at hr
  split at hr
  · rcases List.mem_map.1 hr with ⟨r0, hr0, rfl⟩
    by_cases h0 : (r0.serial == it.serial) = true
    · simp [h0]
    · rw [if_neg h0] at hser ⊢
      exact absurd (beq_iff_eq.2 hser) h0
  · rename_i hnone
    rcases List.mem_append.1 hr with h | h
    · have hn : findRow db it.serial = none := by
        cases hfind : findRow db it.serial with
        | none => rfl
        | some z => rw [hfind] at hnone; exact absurd rfl hnone
      have hall := List.find?_eq_none.1 hn
      exact absurd (beq_iff_eq.2 hser) (hall r h)
    · rcases List.mem_singleton.1 h with rfl
      exact ⟨rfl, rfl⟩

theorem mem_run_of_not_occurs :
    ∀ (its : List AuditItem) (db : DB) (r : Row),
      r ∈ auditRun db its → occursB r.serial its = false → r ∈ db := by
  intro its
  induction its with
  | nil =>
    intro db r hr h
    exact hr
  | cons a rest ih =>
    intro db r hr hoc
    have h1 : (a.serial == r.serial) = false := by
      by_contra hne
      simp only [occursB, List.any_cons, Bool.or_eq_false_iff] at hoc
      exact hne hoc.1
    have h2 : occursB r.serial rest = false := by
      simp only [occursB, List.any_cons, Bool.or_eq_false_iff] at hoc
      exact hoc.2
    have hup : r ∈ upsertAudit db a := ih (upsertAudit db a) r hr h2
    unfold upsertAudit at hup
    split at hup
    · rcases List.mem_map.1 hup with ⟨r0, hr0, heq⟩
      by_cases h0 : (r0.serial == a.serial) = true
      · rw [if_pos h0] at heq
        have : r.serial = a.serial := by
          rw [← heq]
          exact beq_iff_eq.1 h0
        rw [beq_iff_eq.2 this.symm] at h1
        exact absurd h1.symm Bool.false_ne_true
      · rw [if_neg h0] at heq
        rw [← heq]
        exact hr0
    · rcases List.mem_append.1 hup with h | h
      · exact h
      · rcases List.mem_singleton.1 h with rfl
        rw [beq_iff_eq.2 rfl] at h1
        exact absurd h1.symm Bool.false_ne_true

theorem fix_of_mem_run :
    ∀ (items : List AuditItem) (db : DB) (r : Row),
      r ∈ auditRun db items → applySeq items r = r := by
  intro items
  induction items with
  | nil =>
    intro db r h
    rfl
  | cons it its ih =>
    intro db r hr
    have hfix : applySeq its r = r := ih (upsertAudit db it) r hr
    show applySeq its (step1 it r) = r
    by_cases hser : (r.serial == it.serial) = true
    · rw [show step1 it r = { r with location := some it.loc, flags := it.flags } from by
        simp [step1, hser]]
      by_cases hoc : occursB r.serial its = true
      · calc applySeq its { r with location := some it.loc, flags := it.flags }
            = applySeq its r :=
              applySeq_congr { r with location := some it.loc, flags := it.flags } r
                rfl rfl rfl its hoc
          _ = r := hfix
    
      · have hocf : occursB r.serial its = false := Bool.eq_false_iff.2 hoc
        have hmem : r ∈ upsertAudit db it := mem_run_of_not_occurs its (upsertAudit db it) r hr hocf
        have hfields := mem_upsert_fields db it r hmem (beq_iff_eq.1 hser)
        have hrow : { r with location := some it.loc, flags := it.flags } = r := by
          cases r
          simp_all
        rw [hrow]
        exact hfix
    · rw [show step1 it r = r from by simp [step1, hser]]
      exact hfix

theorem auditRun_idem (db : DB) (items : List AuditItem) :
    auditRun (auditRun db items) items = auditRun db items := by
  rw [run_eq_map_of_present items (auditRun db items)
    (fun it hit => present_after_run items db it hit)]
  rw [List.map_congr_left (fun r hr => fix_of_mem_run items db r hr)]
  exact List.map_id' (auditRun db items)

/-- C7: Audit is idempotent: against a fixed Status snapshot and
cleaning prefix, a second Audit run leaves the table exactly as the
first run left it. -/
theorem c7_audit_idempotent (db : DB) (snap : Snapshot) (prefixCleaning : String) :
    auditOp (auditOp db snap prefixCleaning) snap prefixCleaning
      = auditOp db snap prefixCleaning :=
  auditRun_idem db (auditItems snap prefixCleaning)
